import Mathlib

/-!
Shallow embedding of the GeoMetrics event-bus core
(src/docs/EVENT_BUS_MESSAGE_PASSING.md): EventBus (wildcard matching,
priority ordering, middleware, bounded history), SelectionManager and
HistoryManager, together with theorems checking the specification's
claims against this embedding.
-/

namespace Geometrics

/-- An Event as constructed by `EventBus.publish`: bus-generated id,
dot-segmented name, and an (abstracted) payload. -/
structure Event where
  id : Nat
  name : String
  payload : Nat
deriving DecidableEq, Repr

/-- A registered subscription record: priority (higher fires first,
default 0), `once` flag, optional filter predicate and the callback.
A callback returning `Except.error msg` models a thrown exception
with message `msg`. -/
structure SubRec where
  priority : Int
  once : Bool
  filter : Option (Event → Bool)
  callback : Event → Except String Unit

/-- The inner `Map` of a pattern entry: subscription id ↦ record,
in JS-`Map` iteration (insertion/sorted) order. -/
abbrev Inner := List (Nat × SubRec)

/-- The bus registry `this.events`: pattern ↦ inner map, in insertion
order of the pattern keys. -/
abbrev Registry := List (String × Inner)

/-- Lookup `this.events.get(k)` on the outer map. -/
def registryGet (r : Registry) (k : String) : Option Inner :=
  match r.find? (fun p => p.1 = k) with
  | some p => some p.2
  | none => none

/-- Update via `this.events.set(k, v)`: in place when the key exists
(JS `Map.set` keeps the key's position), else append. -/
def registrySet (r : Registry) (k : String) (v : Inner) : Registry :=
  if r.any (fun p => p.1 = k) then
    r.map (fun p => if p.1 = k then (k, v) else p)
  else
    r ++ [(k, v)]

/-- Deletion `this.events.get(k)?.delete(id)`: remove subscription `id` from the
inner map at key `k` only; other keys untouched, missing key a no-op. -/
def registryDeleteSub (r : Registry) (k : String) (id : Nat) : Registry :=
  r.map (fun p => if p.1 = k then (p.1, p.2.filter (fun q => q.1 != id)) else p)

/-- Stable insertion used by `sortByPriorityDesc`: `x`, which precedes
all of the already-sorted tail in registration order, goes in front of
the first element whose priority does not exceed it. -/
def insertByPriority (x : Nat × SubRec) : Inner → Inner
  | [] => [x]
  | y :: ys =>
    if x.2.priority ≥ y.2.priority then x :: y :: ys
    else y :: insertByPriority x ys

/-- Embeds `_sortSubscriptions`: stable sort by descending priority, as JS
`Array.prototype.sort` (stable) with comparator `b.priority - a.priority`. -/
def sortByPriorityDesc : Inner → Inner
  | [] => []
  | x :: xs => insertByPriority x (sortByPriorityDesc xs)

/-- Helper for `splitDot`: accumulates the current segment (reversed). -/
def splitAux : List Char → List Char → List String
  | [], acc => [String.mk acc.reverse]
  | c :: cs, acc =>
    if c = '.' then String.mk acc.reverse :: splitAux cs []
    else splitAux cs (c :: acc)

/-- JS `s.split('.')`: dot-segmented split; the empty string splits to
`[""]`, and every dot produces a boundary (`"a."` gives `["a", ""]`). -/
def splitDot (s : String) : List String := splitAux s.data []

/-- The tail of the `_matchWildcard` loop once the event segments are
exhausted: `*` skips on, `**` returns true, a literal compares unequal
to `undefined` and fails; if the pattern runs out the final
equal-segment-count check fails (the pattern consumed more segments). -/
def matchTail : List String → Bool
  | [] => false
  | p :: ps => if p = "*" then matchTail ps else p = "**"

/-- The `_matchWildcard` loop over pattern segments paired with event
segments (index-aligned, as the JS `for` loop over `patternParts`). -/
def matchGo : List String → List String → Bool
  | [], es => es.isEmpty
  | p :: ps, [] => if p = "*" then matchTail ps else p = "**"
  | p :: ps, e :: es =>
    if p = "*" then matchGo ps es
    else if p = "**" then true
    else if p = e then matchGo ps es
    else false

/-- Embeds `EventBus._matchWildcard(event, pattern)`. -/
def matchWildcard (event pattern : String) : Bool :=
  matchGo (splitDot pattern) (splitDot event)

/-- The bus state: registry, middleware chain (a middleware returning
`true` models `{cancelled: true}`), bounded event history, capacity
(default 100) and the shared id counter. -/
structure EventBus where
  events : Registry
  middleware : List (Event → Bool)
  eventHistory : List Event
  maxHistorySize : Nat
  idCounter : Nat

/-- A freshly constructed bus. -/
def EventBus.new : EventBus := ⟨[], [], [], 100, 0⟩

/-- Subscription options, with the constructor defaults
(`priority: 0, once: false, filter: null`). -/
structure SubOptions where
  priority : Int
  once : Bool
  filter : Option (Event → Bool)

/-- Embeds `EventBus.subscribe`: allocate the next id, append the record to the
pattern's inner map, then re-sort that map by descending priority
(stable). Returns the updated bus and the subscription id. -/
def EventBus.subscribe (bus : EventBus) (pattern : String)
    (cb : Event → Except String Unit) (opts : SubOptions) : EventBus × Nat :=
  let subId := bus.idCounter + 1
  let inner := (registryGet bus.events pattern).getD []
  let sr : SubRec := ⟨opts.priority, opts.once, opts.filter, cb⟩
  let inner2 := sortByPriorityDesc (inner ++ [(subId, sr)])
  ({ bus with idCounter := subId, events := registrySet bus.events pattern inner2 },
   subId)

/-- Embeds `EventBus._findSubscriptions`: exact-pattern entries first, then
every other registered pattern that wildcard-matches the event name,
in registry order; each pattern contributes its inner map in order. -/
def findSubscriptions (r : Registry) (event : String) : Inner :=
  let direct := (registryGet r event).getD []
  let wild := r.foldl
    (fun acc p =>
      if p.1 ≠ event ∧ matchWildcard event p.1 = true then acc ++ p.2 else acc)
    []
  direct ++ wild

/-- Embeds `EventBus._runMiddleware`: first cancelling middleware wins. -/
def runMiddleware : List (Event → Bool) → Event → Bool
  | [], _ => false
  | m :: ms, ev => if m ev then true else runMiddleware ms ev

/-- Instrumented `_runMiddleware` also counting how many middleware
functions were run before returning. -/
def runMiddlewareCount : List (Event → Bool) → Event → Bool × Nat
  | [], _ => (false, 0)
  | m :: ms, ev =>
    if m ev then (true, 1)
    else
      let r := runMiddlewareCount ms ev
      (r.1, r.2 + 1)

/-- Embeds `EventBus._addToHistory`: push, then shift the oldest entry if the
buffer exceeded its capacity. -/
def addToHistory (h : List Event) (maxSize : Nat) (ev : Event) : List Event :=
  let h2 := h ++ [ev]
  if h2.length > maxSize then h2.drop 1 else h2

/-- The Event that `publish` constructs on a given bus state. -/
def mkEvent (bus : EventBus) (name : String) (payload : Nat) : Event :=
  ⟨bus.idCounter + 1, name, payload⟩

/-- Whether the subscription's filter (if any) lets the event through:
`if (filter && !filter(eventData)) return` in the delivery loop. -/
def passFilter (s : SubRec) (ev : Event) : Bool :=
  match s.filter with
  | some f => f ev
  | none => true

/-- Accumulator state of the delivery `forEach` loop. -/
structure DeliverState where
  events : Registry
  delivered : Nat
  errors : List (Nat × String)
  invoked : List Nat

/-- One iteration of the delivery loop for the pair
`(subId, subscription)`: skip if filtered out; otherwise invoke the
callback — on normal return increment `delivered` and, for a `once`
subscription, delete `subId` from the inner map keyed by the published
event name; on a thrown error record `(subId, message)` and continue.
`invoked` is the ghost log of callbacks actually entered. -/
def deliverOne (name : String) (ev : Event) (s : DeliverState)
    (p : Nat × SubRec) : DeliverState :=
  if passFilter p.2 ev then
    match p.2.callback ev with
    | Except.ok _ =>
      let events2 := if p.2.once then registryDeleteSub s.events name p.1 else s.events
      ⟨events2, s.delivered + 1, s.errors, s.invoked ++ [p.1]⟩
    | Except.error msg =>
      ⟨s.events, s.delivered, s.errors ++ [(p.1, msg)], s.invoked ++ [p.1]⟩
  else s

/-- The value `publish` returns (the cancelled and the zero-subscription
early returns carry `delivered = 0` and no errors). -/
structure PublishResult where
  cancelled : Bool
  delivered : Nat
  errors : List (Nat × String)
  event : Event
deriving DecidableEq, Repr

/-- Bus state, result, and the ghost log of invoked subscription ids
after one `publish` call. -/
structure PublishOut where
  bus : EventBus
  result : PublishResult
  invoked : List Nat

/-- Embeds `EventBus.publish`: construct the event; run middleware (a
cancellation returns immediately); snapshot the matching subscriptions
(an empty snapshot returns `delivered = 0` without touching history);
otherwise run the delivery loop over the snapshot and append the event
to the bounded history. -/
def EventBus.publish (bus : EventBus) (name : String) (payload : Nat) :
    PublishOut :=
  let ev := mkEvent bus name payload
  let bus1 := { bus with idCounter := bus.idCounter + 1 }
  if runMiddleware bus1.middleware ev then
    ⟨bus1, ⟨true, 0, [], ev⟩, []⟩
  else
    let subs := findSubscriptions bus1.events name
    if subs.isEmpty then
      ⟨bus1, ⟨false, 0, [], ev⟩, []⟩
    else
      let s := subs.foldl (deliverOne name ev) ⟨bus1.events, 0, [], []⟩
      ⟨{ bus1 with
          events := s.events,
          eventHistory := addToHistory bus1.eventHistory bus1.maxHistorySize ev },
        ⟨false, s.delivered, s.errors, ev⟩, s.invoked⟩

/-- Returns `true` when the callback result models a normal return. -/
def cbOk (r : Except String Unit) : Bool :=
  match r with
  | Except.ok _ => true
  | Except.error _ => false

/-- The subscription ids whose callbacks the delivery loop enters:
exactly the filtered-in snapshot entries, in snapshot order. -/
def invokedSpec (ev : Event) (subs : Inner) : List Nat :=
  subs.filterMap (fun p => if passFilter p.2 ev then some p.1 else none)

/-- The `(subId, message)` error entries the delivery loop records:
the filtered-in entries whose callback throws, in snapshot order. -/
def errorsSpec (ev : Event) (subs : Inner) : List (Nat × String) :=
  subs.filterMap (fun p =>
    if passFilter p.2 ev then
      match p.2.callback ev with
      | Except.ok _ => none
      | Except.error msg => some (p.1, msg)
    else none)

/-- The number of successful deliveries: filtered-in entries whose
callback returns normally. -/
def deliveredSpec (ev : Event) (subs : Inner) : Nat :=
  (subs.filter (fun p => passFilter p.2 ev && cbOk (p.2.callback ev))).length

/-- The ids the loop deletes from the published-name inner map: `once`
subscriptions that were filtered in and whose callback returned
normally. -/
def consumedIds (ev : Event) (subs : Inner) : List Nat :=
  subs.filterMap (fun p =>
    if passFilter p.2 ev && p.2.once && cbOk (p.2.callback ev) then some p.1
    else none)

/-- Sequential deletion of several subscription ids from the inner map
at one key. -/
def deleteAll (r : Registry) (k : String) (ids : List Nat) : Registry :=
  ids.foldl (fun acc i => registryDeleteSub acc k i) r

/-- Matcher following the specification's words for the wildcard rule
(claim C2), to be compared with the source-derived `matchGo`: a `*`
segment matches exactly one corresponding event segment which must
exist, `**` short-circuits to true, a literal matches exactly, and an
exhausted pattern requires the event exhausted at the same position. -/
def specMatchGo : List String → List String → Bool
  | [], es => es.isEmpty
  | p :: ps, es =>
    if p = "**" then true
    else
      match es with
      | [] => false
      | e :: es2 =>
        if p = "*" then specMatchGo ps es2
        else if p = e then specMatchGo ps es2
        else false

/-- The specification's matching rule applied to dot-split strings. -/
def specMatchWildcard (event pattern : String) : Bool :=
  specMatchGo (splitDot pattern) (splitDot event)

/-- A pairwise-descending check used to state the priority-order claim. -/
def isDescending : List Int → Bool
  | [] => true
  | [_] => true
  | x :: y :: rest => x ≥ y && isDescending (y :: rest)

/-- A callback that returns normally. -/
def okcb : Event → Except String Unit := fun _ => Except.ok ()

/-- A callback that models a thrown exception with message `"boom"`. -/
def boomcb : Event → Except String Unit := fun _ => Except.error "boom"

instance : DecidableEq (Except String Unit) := fun x y =>
  match x, y with
  | Except.ok (), Except.ok () => isTrue rfl
  | Except.ok (), Except.error _ => isFalse (fun h => Except.noConfusion h)
  | Except.error _, Except.ok () => isFalse (fun h => Except.noConfusion h)
  | Except.error a, Except.error b =>
    if h : a = b then isTrue (by rw [h])
    else isFalse (fun hh => h (Except.error.inj hh))

/-- A reversible command-pattern Action: name and the (deterministic)
outcomes of its `execute()` and `undo()` methods; `Except.error`
models a thrown exception. -/
structure Action where
  name : String
  execResult : Except String Unit
  undoResult : Except String Unit
deriving DecidableEq, Repr

/-- Ghost log entry: which action method was invoked. -/
inductive ACall where
  | exec (a : Action)
  | und (a : Action)
deriving DecidableEq, Repr

/-- An event the HistoryManager publishes on the bus. -/
inductive HMEvent where
  | undoChanged (size : Nat) (canUndo : Bool)
  | redoChanged (size : Nat) (canRedo : Bool)
  | actionPerformed (kind : String) (actionName : String)
deriving DecidableEq, Repr

/-- State of the `HistoryManager`: the two stacks (oldest first, `push`/`pop`
at the list end) and the stack capacity (default 50). -/
structure HistoryManager where
  undoStack : List Action
  redoStack : List Action
  maxHistorySize : Nat
deriving DecidableEq, Repr

/-- Constructor `new HistoryManager()` with the default capacity. -/
def HistoryManager.new : HistoryManager := ⟨[], [], 50⟩

/-- Embeds `canUndo()`. -/
def HistoryManager.canUndo (hm : HistoryManager) : Bool :=
  decide (0 < hm.undoStack.length)

/-- Embeds `canRedo()`. -/
def HistoryManager.canRedo (hm : HistoryManager) : Bool :=
  decide (0 < hm.redoStack.length)

/-- Embeds `_notifyChange()`: the two stack-changed events published from the
current state. -/
def HistoryManager.notifyChange (hm : HistoryManager) : List HMEvent :=
  [HMEvent.undoChanged hm.undoStack.length hm.canUndo,
   HMEvent.redoChanged hm.redoStack.length hm.canRedo]

/-- The outcome of a HistoryManager operation: `value` is a normal
return of the action's result, `sentinel` the `null` returned on an
empty stack, `thrown` a propagated exception. -/
inductive HMResult where
  | value
  | sentinel
  | thrown (msg : String)
deriving DecidableEq, Repr

/-- New manager state, result, ghost log of action-method invocations,
and the events published on the bus during one operation. -/
structure HMOut where
  hm : HistoryManager
  result : HMResult
  calls : List ACall
  published : List HMEvent
deriving DecidableEq, Repr

/-- Embeds `HistoryManager.execute(action)`: run `action.execute()` first (an
exception propagates before any state change); then push onto the undo
stack, clear the redo stack, truncate the undo stack to capacity by
evicting the oldest entry, and notify. -/
def HistoryManager.execute (hm : HistoryManager) (a : Action) : HMOut :=
  match a.execResult with
  | Except.error msg => ⟨hm, HMResult.thrown msg, [ACall.exec a], []⟩
  | Except.ok _ =>
    let undo2 := hm.undoStack ++ [a]
    let undo3 := if undo2.length > hm.maxHistorySize then undo2.drop 1 else undo2
    let hm2 : HistoryManager := ⟨undo3, [], hm.maxHistorySize⟩
    ⟨hm2, HMResult.value, [ACall.exec a], hm2.notifyChange⟩

/-- Embeds `HistoryManager.undo()`: sentinel on an empty stack; otherwise pop
the most recent action, run `action.undo()` (popping precedes the call,
so a throw propagates with the action already popped), push onto the
redo stack, notify, and publish `history.action.performed`. -/
def HistoryManager.undo (hm : HistoryManager) : HMOut :=
  match hm.undoStack.getLast? with
  | none => ⟨hm, HMResult.sentinel, [], []⟩
  | some a =>
    let rest := hm.undoStack.dropLast
    match a.undoResult with
    | Except.error msg =>
      ⟨⟨rest, hm.redoStack, hm.maxHistorySize⟩, HMResult.thrown msg,
        [ACall.und a], []⟩
    | Except.ok _ =>
      let hm2 : HistoryManager := ⟨rest, hm.redoStack ++ [a], hm.maxHistorySize⟩
      ⟨hm2, HMResult.value, [ACall.und a],
        hm2.notifyChange ++ [HMEvent.actionPerformed "undo" a.name]⟩

/-- Embeds `HistoryManager.redo()`: symmetric to `undo`, popping the redo
stack, running `action.execute()` again and pushing back onto the undo
stack. -/
def HistoryManager.redo (hm : HistoryManager) : HMOut :=
  match hm.redoStack.getLast? with
  | none => ⟨hm, HMResult.sentinel, [], []⟩
  | some a =>
    let rest := hm.redoStack.dropLast
    match a.execResult with
    | Except.error msg =>
      ⟨⟨hm.undoStack, rest, hm.maxHistorySize⟩, HMResult.thrown msg,
        [ACall.exec a], []⟩
    | Except.ok _ =>
      let hm2 : HistoryManager := ⟨hm.undoStack ++ [a], rest, hm.maxHistorySize⟩
      ⟨hm2, HMResult.value, [ACall.exec a],
        hm2.notifyChange ++ [HMEvent.actionPerformed "redo" a.name]⟩

/-- An event the SelectionManager publishes on the bus:
`graph.node.selected`, `graph.node.deselected`, or
`selection.changed` (`previousSelection` is attached only by
`clearSelection`). -/
inductive SMEvent where
  | nodeSelected (nodeId : String) (multiSelect : Bool) (source : String)
  | nodeDeselected (nodeId : String) (source : String)
  | selChanged (selectedIds : List String)
      (previousSelection : Option (List String))
deriving DecidableEq, Repr

/-- A diagnostic trace entry appended by `_propagateSelection`. -/
structure TraceEntry where
  itemType : String
  itemId : String
  action : String
deriving DecidableEq, Repr

/-- State of the `SelectionManager`: the two selection sets (JS `Set`,
insertion-ordered and duplicate-free) and the bounded trace
(capacity default 20). -/
structure SelectionManager where
  selectedNodes : List String
  selectedEdges : List String
  selectionHistory : List TraceEntry
  maxHistorySize : Nat
deriving DecidableEq, Repr

/-- Constructor `new SelectionManager()`. -/
def SelectionManager.new : SelectionManager := ⟨[], [], [], 20⟩

/-- New manager state plus the events published during one call. -/
structure SMOut where
  sm : SelectionManager
  published : List SMEvent
deriving DecidableEq, Repr

/-- Embeds `SelectionManager._addToHistory`: push, shift oldest past capacity. -/
def smAddToHistory (h : List TraceEntry) (maxSize : Nat) (t : TraceEntry) :
    List TraceEntry :=
  let h2 := h ++ [t]
  if h2.length > maxSize then h2.drop 1 else h2

/-- Embeds `SelectionManager.clearSelection()`: publish `node.deselected` for
each selected node in set order, clear both sets, then publish one
`selection.changed` with an empty list and the previous selection. -/
def SelectionManager.clearSelection (sm : SelectionManager) : SMOut :=
  let prev := sm.selectedNodes
  let evs := sm.selectedNodes.map (fun nodeId => SMEvent.nodeDeselected nodeId "clearAll")
  ⟨⟨[], [], sm.selectionHistory, sm.maxHistorySize⟩,
    evs ++ [SMEvent.selChanged [] (some prev)]⟩

/-- Embeds `SelectionManager._propagateSelection`: publish `selection.changed`
with the complete current node selection and append a trace entry. -/
def SelectionManager.propagateSelection (sm : SelectionManager)
    (itemId itemType action : String) : SMOut :=
  ⟨{ sm with selectionHistory :=
      smAddToHistory sm.selectionHistory sm.maxHistorySize ⟨itemType, itemId, action⟩ },
    [SMEvent.selChanged sm.selectedNodes none]⟩

/-- Embeds `SelectionManager.selectNode(nodeId, (multi, source))`: without
`multi` first clear the whole selection; then, only if `nodeId` is not
already selected, add it, publish `node.selected`, and propagate. -/
def SelectionManager.selectNode (sm : SelectionManager) (nodeId : String)
    (multi : Bool) (source : String) : SMOut :=
  let step1 : SMOut := if multi then ⟨sm, []⟩ else sm.clearSelection
  if step1.sm.selectedNodes.contains nodeId then
    ⟨step1.sm, step1.published⟩
  else
    let sm2 := { step1.sm with selectedNodes := step1.sm.selectedNodes ++ [nodeId] }
    let prop := sm2.propagateSelection nodeId "node" "selected"
    ⟨prop.sm, step1.published ++ [SMEvent.nodeSelected nodeId multi source] ++ prop.published⟩

/-- Embeds `SelectionManager.deselectNode(nodeId, (source))`: remove if
present, publish `node.deselected` and propagate only on actual
removal. -/
def SelectionManager.deselectNode (sm : SelectionManager) (nodeId : String)
    (source : String) : SMOut :=
  if sm.selectedNodes.contains nodeId then
    let sm2 := { sm with selectedNodes := sm.selectedNodes.filter (fun x => x != nodeId) }
    let prop := sm2.propagateSelection nodeId "node" "deselected"
    ⟨prop.sm, [SMEvent.nodeDeselected nodeId source] ++ prop.published⟩
  else ⟨sm, []⟩

/-! ### Helper lemmas -/

/-- A pattern without a rest-wildcard never matches once the event
segments are exhausted with pattern segments remaining. -/
theorem matchTail_eq_false (ps : List String) (hno : "**" ∉ ps) :
    matchTail ps = false := by
  induction ps with
  | nil => rfl
  | cons p ps ih =>
    simp only [List.mem_cons, not_or] at hno
    simp only [matchTail]
    by_cases hp : p = "*"
    · simp [hp, ih hno.2]
    · simp [hp]
      exact fun h => hno.1 h.symm

/-- Characterization of the matcher loop on patterns without a
rest-wildcard: equal segment counts, and each pattern segment is `*`
or equals the corresponding event segment. -/
theorem matchGo_no_rest (ps : List String) (hno : "**" ∉ ps) :
    ∀ es : List String,
      (matchGo ps es = true ↔
        ps.length = es.length ∧ ∀ q ∈ ps.zip es, q.1 = "*" ∨ q.1 = q.2) := by
  induction ps with
  | nil =>
    intro es
    cases es <;> simp [matchGo]
  | cons p ps ih =>
    intro es
    simp only [List.mem_cons, not_or] at hno
    obtain ⟨hp2, hps⟩ := hno
    have hp2b : p ≠ "**" := fun h => hp2 h.symm
    cases es with
    | nil =>
      simp only [matchGo]
      by_cases hp : p = "*"
      · simp [hp, matchTail_eq_false ps hps]
      · simp [hp, hp2b]
    | cons e es =>
      simp only [matchGo]
      by_cases hp : p = "*"
      · have := ih hps es
        simp [hp, this, Nat.succ_inj]
      · by_cases hpe : p = e
        · subst hpe
          have := ih hps es
          simp [hp, hp2b, this, Nat.succ_inj]
        · simp only [matchGo, hp, hp2b, hpe, if_false, if_neg hp, if_neg hp2b,
            if_neg hpe]
          constructor
          · intro h
            exact absurd h (by simp)
          · intro h
            exact absurd (h.2 (p, e) (by simp [List.zip_cons_cons]))
              (by simp [hp, hpe])

/-- The middleware chain stops at the first cancelling middleware: it
returns cancelled and has run exactly the functions up to and
including that one. -/
theorem runMiddleware_cancel_decomp (ms1 ms2 : List (Event → Bool))
    (m : Event → Bool) (ev : Event)
    (hb : ∀ f ∈ ms1, f ev = false) (hm : m ev = true) :
    runMiddleware (ms1 ++ m :: ms2) ev = true ∧
    runMiddlewareCount (ms1 ++ m :: ms2) ev = (true, ms1.length + 1) := by
  induction ms1 with
  | nil => simp [runMiddleware, runMiddlewareCount, hm]
  | cons f fs ih =>
    have hf : f ev = false := hb f (by simp)
    have hrest : ∀ g ∈ fs, g ev = false := fun g hg => hb g (by simp [hg])
    obtain ⟨h1, h2⟩ := ih hrest
    simp [runMiddleware, runMiddlewareCount, hf, h1, h2]

/-- One step of `registryGet` on a cons cell. -/
theorem registryGet_cons (p : String × Inner) (r : Registry) (k : String) :
    registryGet (p :: r) k = if p.1 = k then some p.2 else registryGet r k := by
  by_cases h : p.1 = k
  · simp [registryGet, List.find?, h]
  · simp [registryGet, List.find?, h]

/-- One step of `registryDeleteSub` on a cons cell. -/
theorem registryDeleteSub_cons (p : String × Inner) (r : Registry)
    (k : String) (i : Nat) :
    registryDeleteSub (p :: r) k i =
      (if p.1 = k then (p.1, p.2.filter (fun q => q.1 != i)) else p)
        :: registryDeleteSub r k i := rfl

/-- Deleting a subscription id filters the inner map at that key. -/
theorem registryGet_deleteSub_self (r : Registry) (k : String) (i : Nat) :
    registryGet (registryDeleteSub r k i) k =
      (registryGet r k).map (fun l => l.filter (fun q => q.1 != i)) := by
  induction r with
  | nil => rfl
  | cons p r ih =>
    rw [registryDeleteSub_cons, registryGet_cons, registryGet_cons]
    by_cases hk : p.1 = k
    · simp [hk]
    · simp [hk, ih]

/-- Deleting a subscription id leaves every other key untouched. -/
theorem registryGet_deleteSub_other (r : Registry) (k k2 : String) (i : Nat)
    (h : k2 ≠ k) :
    registryGet (registryDeleteSub r k i) k2 = registryGet r k2 := by
  induction r with
  | nil => rfl
  | cons p r ih =>
    rw [registryDeleteSub_cons, registryGet_cons, registryGet_cons]
    by_cases hk : p.1 = k
    · have hne : ¬(p.1 = k2) := by rw [hk]; exact fun hh => h hh.symm
      have hkk : ¬(k = k2) := fun hh => h hh.symm
      simp [hk, hne, hkk, ih]
    · by_cases hk2 : p.1 = k2
      · simp [hk, hk2, h]
      · simp [hk, hk2, ih]

/-- Sequential deletions filter the inner map at the key by the whole
id list. -/
theorem registryGet_deleteAll_self (k : String) (ids : List Nat) :
    ∀ r : Registry,
      registryGet (deleteAll r k ids) k =
        (registryGet r k).map
          (fun l => l.filter (fun q => !(ids.contains q.1))) := by
  induction ids with
  | nil =>
    intro r
    cases hr : registryGet r k <;> simp [deleteAll, hr, List.filter_true]
  | cons i ids ih =>
    intro r
    have step : deleteAll r k (i :: ids) = deleteAll (registryDeleteSub r k i) k ids := rfl
    rw [step, ih, registryGet_deleteSub_self]
    cases hr : registryGet r k with
    | none => rfl
    | some l =>
      simp only [Option.map_some', List.filter_filter, Option.some.injEq]
      apply List.filter_congr
      intro q _
      by_cases h1 : q.1 = i <;> by_cases h2 : q.1 ∈ ids <;>
        simp [List.contains_cons, List.elem_eq_mem, bne, h1, h2]

/-- Sequential deletions at one key leave other keys untouched. -/
theorem registryGet_deleteAll_other (k k2 : String) (h : k2 ≠ k)
    (ids : List Nat) :
    ∀ r : Registry, registryGet (deleteAll r k ids) k2 = registryGet r k2 := by
  induction ids with
  | nil => intro r; rfl
  | cons i ids ih =>
    intro r
    have step : deleteAll r k (i :: ids) = deleteAll (registryDeleteSub r k i) k ids := rfl
    rw [step, ih, registryGet_deleteSub_other r k k2 i h]

/-- Characterization of the delivery loop: it deletes exactly the
consumed `once` ids from the published-name key, counts the successful
filtered-in callbacks, records one error entry per throwing filtered-in
callback in order, and enters exactly the filtered-in callbacks. -/
theorem deliver_foldl (name : String) (ev : Event) (subs : Inner) :
    ∀ s : DeliverState,
      subs.foldl (deliverOne name ev) s =
        ⟨deleteAll s.events name (consumedIds ev subs),
         s.delivered + deliveredSpec ev subs,
         s.errors ++ errorsSpec ev subs,
         s.invoked ++ invokedSpec ev subs⟩ := by
  induction subs with
  | nil =>
    intro s
    simp [consumedIds, deliveredSpec, errorsSpec, invokedSpec, deleteAll]
  | cons p rest ih =>
    intro s
    simp only [List.foldl_cons]
    rw [ih]
    cases hf : passFilter p.2 ev with
    | false =>
      simp [deliverOne, hf, consumedIds, deliveredSpec, errorsSpec, invokedSpec,
        List.filterMap_cons, List.filter_cons, cbOk]
    | true =>
      cases hcb : p.2.callback ev with
      | ok v =>
        cases ho : p.2.once with
        | false =>
          simp only [deliverOne, hf, hcb, ho, if_true, if_false, Bool.false_eq_true,
            consumedIds, deliveredSpec, errorsSpec, invokedSpec,
            List.filterMap_cons, List.filter_cons, cbOk]
          simp [List.append_assoc, Nat.add_assoc, Nat.add_comm 1]
        | true =>
          simp only [deliverOne, hf, hcb, ho, if_true, consumedIds, deliveredSpec,
            errorsSpec, invokedSpec, List.filterMap_cons, List.filter_cons, cbOk,
            deleteAll, List.foldl_cons]
          simp [deleteAll, List.append_assoc, Nat.add_assoc, Nat.add_comm 1]
      | error msg =>
        simp only [deliverOne, hf, hcb, consumedIds, deliveredSpec, errorsSpec,
          invokedSpec, List.filterMap_cons, List.filter_cons, cbOk]
        simp [List.append_assoc]

/-- Outcome of `publish` when middleware does not cancel and no
subscription matches: the zero-subscription early return. -/
theorem publish_no_subs (bus : EventBus) (name : String) (payload : Nat)
    (hmc : runMiddleware bus.middleware (mkEvent bus name payload) = false)
    (hs : findSubscriptions bus.events name = []) :
    bus.publish name payload =
      ⟨{ bus with idCounter := bus.idCounter + 1 },
       ⟨false, 0, [], mkEvent bus name payload⟩, []⟩ := by
  simp only [EventBus.publish]
  rw [if_neg (by simp [hmc]), hs]
  rfl

/-- Outcome of `publish` when middleware does not cancel and the
snapshot is nonempty: the delivery loop runs and the event is appended
to the bounded history. -/
theorem publish_delivers (bus : EventBus) (name : String) (payload : Nat)
    (hmc : runMiddleware bus.middleware (mkEvent bus name payload) = false)
    (hs : findSubscriptions bus.events name ≠ []) :
    bus.publish name payload =
      ⟨⟨deleteAll bus.events name
          (consumedIds (mkEvent bus name payload) (findSubscriptions bus.events name)),
        bus.middleware,
        addToHistory bus.eventHistory bus.maxHistorySize (mkEvent bus name payload),
        bus.maxHistorySize, bus.idCounter + 1⟩,
       ⟨false,
        deliveredSpec (mkEvent bus name payload) (findSubscriptions bus.events name),
        errorsSpec (mkEvent bus name payload) (findSubscriptions bus.events name),
        mkEvent bus name payload⟩,
       invokedSpec (mkEvent bus name payload) (findSubscriptions bus.events name)⟩ := by
  simp only [EventBus.publish]
  rw [if_neg (by simp [hmc])]
  have hne : (findSubscriptions bus.events name).isEmpty = false := by
    cases h : findSubscriptions bus.events name with
    | nil => exact absurd h hs
    | cons a l => rfl
  rw [if_neg (by simp [hne])]
  rw [deliver_foldl]
  simp

/-- Holds when every pattern's inner subscription list in the registry
is in descending-priority order. -/
def allInnerSorted (r : Registry) : Bool :=
  r.all (fun p => isDescending (p.2.map (fun q => q.2.priority)))

/-- Priority-only image of `insertByPriority`, used to reason about
the order the sort produces. -/
def insertDescInt (a : Int) : List Int → List Int
  | [] => [a]
  | b :: bs => if a ≥ b then a :: b :: bs else b :: insertDescInt a bs

/-- Mapping to priorities commutes with the insertion step. -/
theorem map_insertByPriority (x : Nat × SubRec) (l : Inner) :
    (insertByPriority x l).map (fun q => q.2.priority) =
      insertDescInt x.2.priority (l.map (fun q => q.2.priority)) := by
  induction l with
  | nil => rfl
  | cons y ys ih =>
    simp only [insertByPriority, insertDescInt, List.map_cons]
    by_cases hge : x.2.priority ≥ y.2.priority
    · rw [if_pos hge, if_pos hge]
      rfl
    · rw [if_neg hge, if_neg hge, List.map_cons, ih]

/-- Inserting into a descending list keeps it descending. -/
theorem isDescending_insertDescInt (a : Int) (l : List Int)
    (h : isDescending l = true) :
    isDescending (insertDescInt a l) = true := by
  induction l with
  | nil => rfl
  | cons b bs ih =>
    simp only [insertDescInt]
    by_cases hab : a ≥ b
    · rw [if_pos hab]
      simp only [isDescending, Bool.and_eq_true, decide_eq_true_eq]
      exact ⟨hab, h⟩
    · rw [if_neg hab]
      cases bs with
      | nil =>
        simp only [insertDescInt, isDescending, Bool.and_eq_true, decide_eq_true_eq,
          and_true]
        omega
      | cons c cs =>
        have h2 : b ≥ c ∧ isDescending (c :: cs) = true := by
          simpa [isDescending, Bool.and_eq_true, decide_eq_true_eq] using h
        have hins := ih h2.2
        by_cases hac : a ≥ c
        · have he : insertDescInt a (c :: cs) = a :: c :: cs := by
            simp [insertDescInt, hac]
          rw [he]
          simp only [isDescending, Bool.and_eq_true, decide_eq_true_eq]
          exact ⟨by omega, hac, by
            simpa [isDescending, Bool.and_eq_true, decide_eq_true_eq] using h2.2⟩
        · have he : insertDescInt a (c :: cs) = c :: insertDescInt a cs := by
            simp [insertDescInt, hac]
          rw [he]
          simp only [isDescending, Bool.and_eq_true, decide_eq_true_eq]
          refine ⟨h2.1, ?_⟩
          rw [← he]
          exact hins

/-- The sort used at subscribe time always produces a
descending-priority list. -/
theorem isDescending_sortByPriorityDesc (l : Inner) :
    isDescending ((sortByPriorityDesc l).map (fun q => q.2.priority)) = true := by
  induction l with
  | nil => rfl
  | cons x xs ih =>
    simp only [sortByPriorityDesc]
    rw [map_insertByPriority]
    exact isDescending_insertDescInt _ _ ih

/-- Stability of the insertion step: the subsequence at any fixed
priority gains the inserted element at the front exactly when it has
that priority, and is otherwise untouched. -/
theorem filter_insertByPriority (x : Nat × SubRec) (l : Inner) (c : Int) :
    (insertByPriority x l).filter (fun q => q.2.priority == c) =
      if x.2.priority == c then
        x :: l.filter (fun q => q.2.priority == c)
      else l.filter (fun q => q.2.priority == c) := by
  induction l with
  | nil =>
    cases hc : (x.2.priority == c) <;> simp [insertByPriority, List.filter_cons, hc]
  | cons y ys ih =>
    simp only [insertByPriority]
    by_cases hge : x.2.priority ≥ y.2.priority
    · rw [if_pos hge]
      cases hc : (x.2.priority == c) <;> simp [List.filter_cons, hc]
    · rw [if_neg hge]
      cases hc : (x.2.priority == c) with
      | true =>
        have hx : x.2.priority = c := by simpa using hc
        have hy : (y.2.priority == c) = false := by
          have : y.2.priority ≠ c := by omega
          simpa using this
        simp [List.filter_cons, hy, ih, hc]
      | false =>
        cases hy : (y.2.priority == c) <;> simp [List.filter_cons, hy, ih, hc]

/-- Stability of the subscribe-time sort: the subsequence of
subscriptions at any fixed priority is exactly the one of the unsorted
input, in the same (registration) order. -/
theorem filter_sortByPriorityDesc (l : Inner) (c : Int) :
    (sortByPriorityDesc l).filter (fun q => q.2.priority == c) =
      l.filter (fun q => q.2.priority == c) := by
  induction l with
  | nil => rfl
  | cons x xs ih =>
    simp only [sortByPriorityDesc]
    rw [filter_insertByPriority]
    cases hc : (x.2.priority == c) <;> simp [List.filter_cons, hc, ih]

/-- In-place-update branch of `registrySet`, read back at that key. -/
theorem registryGet_map_update (r : Registry) (k : String) (v : Inner)
    (h : r.any (fun p => p.1 = k) = true) :
    registryGet (r.map (fun p => if p.1 = k then (k, v) else p)) k = some v := by
  induction r with
  | nil => simp at h
  | cons p rest ih =>
    by_cases hp : p.1 = k
    · simp only [List.map_cons, if_pos hp]
      rw [registryGet_cons]
      simp
    · simp only [List.map_cons, if_neg hp]
      rw [registryGet_cons, if_neg hp]
      apply ih
      simpa [List.any_cons, hp] using h

/-- Append branch of `registrySet`, read back at the appended key. -/
theorem registryGet_append_key (r : Registry) (k : String) (v : Inner)
    (h : r.any (fun p => p.1 = k) = false) :
    registryGet (r ++ [(k, v)]) k = some v := by
  induction r with
  | nil =>
    rw [List.nil_append, registryGet_cons]
    simp
  | cons p rest ih =>
    simp only [List.any_cons, Bool.or_eq_false_iff, decide_eq_false_iff_not] at h
    rw [List.cons_append, registryGet_cons, if_neg h.1]
    exact ih (by simpa using h.2)

/-- Setting a key then reading it gives the stored inner list. -/
theorem registryGet_set_self (r : Registry) (k : String) (v : Inner) :
    registryGet (registrySet r k v) k = some v := by
  simp only [registrySet]
  by_cases h : r.any (fun p => p.1 = k) = true
  · rw [if_pos h]
    exact registryGet_map_update r k v h
  · have h2 : r.any (fun p => p.1 = k) = false := by
      cases hx : r.any (fun p => p.1 = k)
      · rfl
      · exact absurd hx h
    rw [if_neg (by simp [h2]), registryGet_append_key r k v h2]

/-- `registrySet` with a descending inner list keeps the whole registry
descending. -/
theorem allInnerSorted_registrySet (r : Registry) (k : String) (v : Inner)
    (hr : allInnerSorted r = true)
    (hv : isDescending (v.map (fun q => q.2.priority)) = true) :
    allInnerSorted (registrySet r k v) = true := by
  simp only [registrySet, allInnerSorted] at *
  by_cases h : r.any (fun p => p.1 = k) = true
  · rw [if_pos h, List.all_map]
    simp only [List.all_eq_true] at hr ⊢
    intro p hp
    by_cases hpk : p.1 = k <;> simp [Function.comp, hpk, hv, hr p hp]
  · rw [if_neg h, List.all_append]
    simp [hr, hv]

/-- `subscribe` maintains the invariant that every pattern's inner
list is in descending-priority order. -/
theorem allInnerSorted_subscribe (bus : EventBus) (pat : String)
    (cb : Event → Except String Unit) (opts : SubOptions)
    (h : allInnerSorted bus.events = true) :
    allInnerSorted (bus.subscribe pat cb opts).1.events = true := by
  show allInnerSorted (registrySet bus.events pat _) = true
  exact allInnerSorted_registrySet _ _ _ h (isDescending_sortByPriorityDesc _)

/-- Sortedness of the exact-match segment, from the registry invariant. -/
theorem direct_sorted (r : Registry) (k : String)
    (h : allInnerSorted r = true) :
    isDescending (((registryGet r k).getD []).map (fun q => q.2.priority))
      = true := by
  simp only [registryGet]
  cases hf : r.find? (fun p => p.1 = k) with
  | none => rfl
  | some pr =>
    have hm : pr ∈ r := List.mem_of_find?_eq_some hf
    simp only [allInnerSorted, List.all_eq_true] at h
    simpa using h pr hm

/-- The snapshot decomposes as the exact-match inner list followed by
the inner lists of the wildcard-matching patterns, in registry
(insertion) order. -/
theorem findSubscriptions_decomp (r : Registry) (event : String) :
    findSubscriptions r event =
      ((registryGet r event).getD []) ++
        ((r.filter (fun p => decide (p.1 ≠ event) && matchWildcard event p.1)).map
          (fun p => p.2)).flatten := by
  have hfold : ∀ (rr : Registry) (acc : Inner),
      rr.foldl (fun acc p =>
        if p.1 ≠ event ∧ matchWildcard event p.1 = true then acc ++ p.2 else acc)
        acc =
      acc ++ ((rr.filter (fun p =>
        decide (p.1 ≠ event) && matchWildcard event p.1)).map
          (fun p => p.2)).flatten := by
    intro rr
    induction rr with
    | nil => intro acc; simp
    | cons p rest ih =>
      intro acc
      by_cases hc : p.1 ≠ event ∧ matchWildcard event p.1 = true
      · have hb : (decide (p.1 ≠ event) && matchWildcard event p.1) = true := by
          simp [hc.1, hc.2]
        simp only [List.foldl_cons, if_pos hc, List.filter_cons, hb, if_true]
        rw [ih]
        simp [List.append_assoc]
      · have hb : (decide (p.1 ≠ event) && matchWildcard event p.1) = false := by
          cases hd : decide (p.1 ≠ event) <;>
            cases hw : matchWildcard event p.1 <;> simp_all
        simp only [List.foldl_cons, if_neg hc, List.filter_cons, hb]
        exact ih acc
  simp only [findSubscriptions]
  rw [hfold]
  simp

/-! ### Claim C1 — history write on publish -/

/-- C1 counterexample: on a fresh bus (no middleware, so the publish is
not cancelled), a publish with zero matching subscriptions returns
`delivered = 0` but the constructed event is NOT appended to the
history — the history stays empty — contradicting the claim that the
event is appended even when zero subscriptions match. -/
theorem C1_counterexample :
    (EventBus.new.publish "a.b" 7).result.delivered = 0 ∧
    (EventBus.new.publish "a.b" 7).result.cancelled = false ∧
    (EventBus.new.publish "a.b" 7).bus.eventHistory = [] ∧
    (EventBus.new.publish "a.b" 7).bus.eventHistory.contains
      (mkEvent EventBus.new "a.b" 7) = false := by
  exact ⟨rfl, rfl, rfl, rfl⟩

/-- C1 (amended): for every publish not cancelled by middleware, if at
least one subscription matches, the constructed Event is appended to
the bounded history ring buffer (evicting the oldest entry when the
buffer already holds `maxHistorySize` entries); but if zero
subscriptions match, the call returns `delivered = 0` and the event is
NOT appended — the history is unchanged. -/
theorem C1_history_write (bus : EventBus) (name : String) (payload : Nat)
    (hmc : runMiddleware bus.middleware (mkEvent bus name payload) = false) :
    (findSubscriptions bus.events name = [] →
      (bus.publish name payload).bus.eventHistory = bus.eventHistory ∧
      (bus.publish name payload).result.delivered = 0 ∧
      (bus.publish name payload).result.cancelled = false) ∧
    (findSubscriptions bus.events name ≠ [] →
      (bus.publish name payload).bus.eventHistory =
        addToHistory bus.eventHistory bus.maxHistorySize (mkEvent bus name payload) ∧
      (bus.eventHistory.length < bus.maxHistorySize →
        (bus.publish name payload).bus.eventHistory =
          bus.eventHistory ++ [mkEvent bus name payload]) ∧
      (bus.eventHistory.length = bus.maxHistorySize → 0 < bus.maxHistorySize →
        (bus.publish name payload).bus.eventHistory =
          bus.eventHistory.drop 1 ++ [mkEvent bus name payload])) := by
  constructor
  · intro hs
    rw [publish_no_subs bus name payload hmc hs]
    exact ⟨rfl, rfl, rfl⟩
  · intro hs
    rw [publish_delivers bus name payload hmc hs]
    refine ⟨rfl, ?_, ?_⟩
    · intro hlt
      show addToHistory _ _ _ = _
      simp only [addToHistory]
      rw [if_neg (by simp only [List.length_append, List.length_cons,
        List.length_nil]; omega)]
    · intro heq hpos
      show addToHistory _ _ _ = _
      simp only [addToHistory]
      rw [if_pos (by simp only [List.length_append, List.length_cons,
        List.length_nil]; omega)]
      rw [List.drop_append_of_le_length (by omega)]

/-- A bus with a single exact-pattern subscription, used to witness the
nonempty-snapshot branch of the history-write theorem. -/
def c1bus : EventBus := (EventBus.new.subscribe "a" okcb ⟨0, false, none⟩).1

/-- Witness for the history-write theorem on `c1bus`. -/
theorem C1_witness :
    (findSubscriptions c1bus.events "a" = [] →
      (c1bus.publish "a" 3).bus.eventHistory = c1bus.eventHistory ∧
      (c1bus.publish "a" 3).result.delivered = 0 ∧
      (c1bus.publish "a" 3).result.cancelled = false) ∧
    (findSubscriptions c1bus.events "a" ≠ [] →
      (c1bus.publish "a" 3).bus.eventHistory =
        addToHistory c1bus.eventHistory c1bus.maxHistorySize (mkEvent c1bus "a" 3) ∧
      (c1bus.eventHistory.length < c1bus.maxHistorySize →
        (c1bus.publish "a" 3).bus.eventHistory =
          c1bus.eventHistory ++ [mkEvent c1bus "a" 3]) ∧
      (c1bus.eventHistory.length = c1bus.maxHistorySize → 0 < c1bus.maxHistorySize →
        (c1bus.publish "a" 3).bus.eventHistory =
          c1bus.eventHistory.drop 1 ++ [mkEvent c1bus "a" 3])) :=
  C1_history_write c1bus "a" 3 rfl

/-! ### Claim C2 — wildcard matching rule -/

/-- C2 counterexample: the source matcher and the claim's rule disagree
on pattern `a.*.**` against event `a`: the claim requires the `*`
segment to match an existing event segment (there is none), but the
code's `*` branch skips without checking existence and the following
`**` short-circuits to true before the final length check. -/
theorem C2_counterexample :
    matchWildcard "a" "a.*.**" = true ∧
    specMatchWildcard "a" "a.*.**" = false := by
  exact ⟨rfl, rfl⟩

/-- C2 (amended): the matcher behaves as claimed except that a `*`
segment does not itself require the corresponding event segment to
exist — missing segments are caught only by the final equal-length
check, which a `**` bypasses (so `a.*.**` matches `a`). On every
pattern without `**`, the matcher returns true iff segment counts are
equal and each pattern segment is `*` or equals the corresponding
event segment; `**` short-circuits to true; and all the claim's
concrete examples hold as stated. -/
theorem C2_wildcard_rule (ps es : List String) (hno : "**" ∉ ps) :
    (matchGo ps es = true ↔
      ps.length = es.length ∧ ∀ q ∈ ps.zip es, q.1 = "*" ∨ q.1 = q.2) ∧
    matchGo ("**" :: ps) es = true ∧
    matchWildcard "a" "a.*.**" = true ∧
    matchWildcard "a.b.c" "a.*.c" = true ∧
    matchWildcard "a.b.d.c" "a.*.c" = false ∧
    matchWildcard "a.c" "a.*.c" = false ∧
    matchWildcard "a" "a.**" = true ∧
    matchWildcard "a.b" "a.**" = true ∧
    matchWildcard "a.b.c" "a.**" = true := by
  refine ⟨matchGo_no_rest ps hno es, ?_, rfl, rfl, rfl, rfl, rfl, rfl, rfl⟩
  cases es <;> simp [matchGo]

/-- Witness for the wildcard-rule theorem at pattern `["a", "*"]` and
event `["a", "b"]`. -/
theorem C2_witness :
    (matchGo ["a", "*"] ["a", "b"] = true ↔
      (["a", "*"] : List String).length = (["a", "b"] : List String).length ∧
      ∀ q ∈ (["a", "*"] : List String).zip ["a", "b"], q.1 = "*" ∨ q.1 = q.2) ∧
    matchGo ("**" :: ["a", "*"]) ["a", "b"] = true ∧
    matchWildcard "a" "a.*.**" = true ∧
    matchWildcard "a.b.c" "a.*.c" = true ∧
    matchWildcard "a.b.d.c" "a.*.c" = false ∧
    matchWildcard "a.c" "a.*.c" = false ∧
    matchWildcard "a" "a.**" = true ∧
    matchWildcard "a.b" "a.**" = true ∧
    matchWildcard "a.b.c" "a.**" = true :=
  C2_wildcard_rule ["a", "*"] ["a", "b"] (by decide)

/-! ### Claim C3 — delivery order (priority) -/

/-- A bus with an exact-pattern subscription (id 1) at priority 0
registered first and a wildcard subscription (id 2) at priority 5
registered second. -/
def c3bus : EventBus :=
  ((EventBus.new.subscribe "a" okcb ⟨0, false, none⟩).1.subscribe
    "*" okcb ⟨5, false, none⟩).1

/-- C3 counterexample: on `c3bus`, publishing `a` visits the resolved
subscriber set in the order [id 1 (priority 0), id 2 (priority 5)] —
exact matches first, then wildcard matches — which is not descending
priority over the whole set. -/
theorem C3_counterexample :
    (c3bus.publish "a" 0).invoked = [1, 2] ∧
    (findSubscriptions c3bus.events "a").map (fun p => p.2.priority) = [0, 5] ∧
    isDescending
      ((findSubscriptions c3bus.events "a").map (fun p => p.2.priority)) = false := by
  exact ⟨rfl, rfl, rfl⟩

/-- Four subscriptions registered in order on the single pattern `p.q`
with priorities 5, 1, 5, 0 (ids 1, 2, 3, 4). -/
def c3pbus : EventBus :=
  ((((EventBus.new.subscribe "p.q" okcb ⟨5, false, none⟩).1.subscribe
      "p.q" okcb ⟨1, false, none⟩).1.subscribe
      "p.q" okcb ⟨5, false, none⟩).1.subscribe
      "p.q" okcb ⟨0, false, none⟩).1

/-- C3 (amended): for every publish not cancelled by middleware, on a
bus whose within-pattern lists are descending (the invariant
`subscribe` itself maintains, also proven here): delivery enters the
filtered-in callbacks of the resolved snapshot in snapshot order; the
snapshot is the exact-pattern inner list followed by the inner lists of
the wildcard-matching patterns in registry (insertion) order, with no
global re-sort; the exact segment and every wildcard segment are each
in descending-priority order; subscribing keeps every within-pattern
list descending while preserving the relative (registration) order of
equal-priority subscriptions; and in particular priorities
[5, 1, 5, 0] registered in order on one pattern deliver as
[sub0, sub2, sub1, sub3]. -/
theorem C3_priority_order (bus : EventBus) (name : String) (payload : Nat)
    (pat : String) (cb : Event → Except String Unit) (opts : SubOptions)
    (c : Int)
    (hmc : runMiddleware bus.middleware (mkEvent bus name payload) = false)
    (hsorted : allInnerSorted bus.events = true) :
    (bus.publish name payload).invoked =
      invokedSpec (mkEvent bus name payload) (findSubscriptions bus.events name) ∧
    findSubscriptions bus.events name =
      ((registryGet bus.events name).getD []) ++
        ((bus.events.filter (fun p =>
            decide (p.1 ≠ name) && matchWildcard name p.1)).map
          (fun p => p.2)).flatten ∧
    isDescending (((registryGet bus.events name).getD []).map
      (fun q => q.2.priority)) = true ∧
    allInnerSorted (bus.events.filter (fun p =>
      decide (p.1 ≠ name) && matchWildcard name p.1)) = true ∧
    allInnerSorted (bus.subscribe pat cb opts).1.events = true ∧
    ((registryGet (bus.subscribe pat cb opts).1.events pat).getD []).filter
        (fun q => q.2.priority == c) =
      (((registryGet bus.events pat).getD []) ++
        [(bus.idCounter + 1, SubRec.mk opts.priority opts.once opts.filter cb)]).filter
        (fun q => q.2.priority == c) ∧
    (c3pbus.publish "p.q" 0).invoked = [1, 3, 2, 4] := by
  refine ⟨?_, findSubscriptions_decomp bus.events name,
    direct_sorted bus.events name hsorted, ?_,
    allInnerSorted_subscribe bus pat cb opts hsorted, ?_, rfl⟩
  · by_cases hs : findSubscriptions bus.events name = []
    · rw [publish_no_subs bus name payload hmc hs, hs]
      rfl
    · rw [publish_delivers bus name payload hmc hs]
  · simp only [allInnerSorted, List.all_eq_true] at hsorted ⊢
    intro p hp
    exact hsorted p (List.mem_of_mem_filter hp)
  · show ((registryGet (registrySet bus.events pat _) pat).getD []).filter _ = _
    rw [registryGet_set_self]
    simp only [Option.getD_some]
    exact filter_sortByPriorityDesc _ c

/-- Witness for the priority-order theorem on `c3pbus` with a further
subscription at priority 2 on the same pattern and the tie priority 5. -/
theorem C3_witness :
    (c3pbus.publish "p.q" 0).invoked =
      invokedSpec (mkEvent c3pbus "p.q" 0) (findSubscriptions c3pbus.events "p.q") ∧
    findSubscriptions c3pbus.events "p.q" =
      ((registryGet c3pbus.events "p.q").getD []) ++
        ((c3pbus.events.filter (fun p =>
            decide (p.1 ≠ "p.q") && matchWildcard "p.q" p.1)).map
          (fun p => p.2)).flatten ∧
    isDescending (((registryGet c3pbus.events "p.q").getD []).map
      (fun q => q.2.priority)) = true ∧
    allInnerSorted (c3pbus.events.filter (fun p =>
      decide (p.1 ≠ "p.q") && matchWildcard "p.q" p.1)) = true ∧
    allInnerSorted (c3pbus.subscribe "p.q" okcb ⟨2, false, none⟩).1.events = true ∧
    ((registryGet (c3pbus.subscribe "p.q" okcb ⟨2, false, none⟩).1.events
        "p.q").getD []).filter (fun q => q.2.priority == 5) =
      (((registryGet c3pbus.events "p.q").getD []) ++
        [(c3pbus.idCounter + 1, SubRec.mk 2 false none okcb)]).filter
        (fun q => q.2.priority == 5) ∧
    (c3pbus.publish "p.q" 0).invoked = [1, 3, 2, 4] :=
  C3_priority_order c3pbus "p.q" 0 "p.q" okcb ⟨2, false, none⟩ 5 rfl rfl

/-! ### Claim C4 — once-subscription consumption -/

/-- A bus with a `once` subscription (id 1) under the exact pattern `x`
whose callback throws. -/
def c4bus : EventBus := (EventBus.new.subscribe "x" boomcb ⟨0, true, none⟩).1

/-- A bus with a `once` subscription (id 1) under the wildcard pattern
`y.*` whose callback returns normally. -/
def c4wbus : EventBus := (EventBus.new.subscribe "y.*" okcb ⟨0, true, none⟩).1

/-- C4 counterexample: a `once` subscription whose callback throws is
NOT removed — after the first publish it is still registered under `x`
and its callback is invoked again by a second publish; and a `once`
subscription matched through a wildcard pattern is not removed either,
even after a successful delivery, because the removal deletes from the
map keyed by the published event name. Both contradict the claim that
the subscription is removed after any invocation attempt. -/
theorem C4_counterexample :
    (c4bus.publish "x" 0).invoked = [1] ∧
    (c4bus.publish "x" 0).result.errors = [(1, "boom")] ∧
    ((registryGet (c4bus.publish "x" 0).bus.events "x").getD []).map
      (fun p => p.1) = [1] ∧
    ((c4bus.publish "x" 0).bus.publish "x" 1).invoked = [1] ∧
    (c4wbus.publish "y.z" 0).invoked = [1] ∧
    (c4wbus.publish "y.z" 0).result.delivered = 1 ∧
    ((registryGet (c4wbus.publish "y.z" 0).bus.events "y.*").getD []).map
      (fun p => p.1) = [1] := by
  exact ⟨rfl, rfl, rfl, rfl, rfl, rfl, rfl⟩

/-- C4 (amended): during a non-cancelled publish with a nonempty
snapshot, the registry changes only at the key of the published event
name, where exactly the consumed ids — `once` subscriptions in the
snapshot that were filtered in AND whose callback returned normally —
are removed; every other key (in particular any wildcard pattern a
`once` subscription was registered under) is untouched, and a throwing
or filtered-out `once` subscription is not consumed. -/
theorem C4_once_removal (bus : EventBus) (name : String) (payload : Nat)
    (hmc : runMiddleware bus.middleware (mkEvent bus name payload) = false)
    (hs : findSubscriptions bus.events name ≠ []) :
    registryGet (bus.publish name payload).bus.events name =
      (registryGet bus.events name).map
        (fun l => l.filter (fun q =>
          !((consumedIds (mkEvent bus name payload)
              (findSubscriptions bus.events name)).contains q.1))) ∧
    ∀ k, k ≠ name →
      registryGet (bus.publish name payload).bus.events k =
        registryGet bus.events k := by
  rw [publish_delivers bus name payload hmc hs]
  constructor
  · exact registryGet_deleteAll_self name _ bus.events
  · intro k hk
    exact registryGet_deleteAll_other name k hk _ bus.events

/-- A bus with a `once` subscription (id 1) under the exact pattern `w`
whose callback succeeds, to witness the removal theorem. -/
def c4okbus : EventBus := (EventBus.new.subscribe "w" okcb ⟨0, true, none⟩).1

/-- Witness for the once-removal theorem on `c4okbus`. -/
theorem C4_witness :
    registryGet (c4okbus.publish "w" 2).bus.events "w" =
      (registryGet c4okbus.events "w").map
        (fun l => l.filter (fun q =>
          !((consumedIds (mkEvent c4okbus "w" 2)
              (findSubscriptions c4okbus.events "w")).contains q.1))) ∧
    registryGet (c4okbus.publish "w" 2).bus.events "z" =
      registryGet c4okbus.events "z" :=
  ⟨(C4_once_removal c4okbus "w" 2 rfl
      (fun h => absurd (congrArg List.length h) (by decide))).1,
   (C4_once_removal c4okbus "w" 2 rfl
      (fun h => absurd (congrArg List.length h) (by decide))).2 "z" (by decide)⟩

/-! ### Claim C5 — middleware cancellation -/

/-- Embeds `EventBus.use(middleware)`: appends to the chain. -/
def EventBus.use (bus : EventBus) (m : Event → Bool) : EventBus :=
  { bus with middleware := bus.middleware ++ [m] }

/-- C5: when the middleware chain decomposes as non-cancelling
functions, then a cancelling one, then a tail, `publish` returns
immediately with `cancelled = true`: no subscriber callback is invoked,
exactly the middleware up to and including the cancelling one are run
(the tail is not), and neither the history nor the subscription
registry is modified by the call. -/
theorem C5_cancellation (bus : EventBus) (name : String) (payload : Nat)
    (ms1 ms2 : List (Event → Bool)) (m : Event → Bool)
    (hdec : bus.middleware = ms1 ++ m :: ms2)
    (hbefore : ∀ f ∈ ms1, f (mkEvent bus name payload) = false)
    (hcancel : m (mkEvent bus name payload) = true) :
    (bus.publish name payload).result.cancelled = true ∧
    (bus.publish name payload).result.delivered = 0 ∧
    (bus.publish name payload).invoked = [] ∧
    (bus.publish name payload).bus.events = bus.events ∧
    (bus.publish name payload).bus.eventHistory = bus.eventHistory ∧
    runMiddlewareCount bus.middleware (mkEvent bus name payload) =
      (true, ms1.length + 1) := by
  obtain ⟨h1, h2⟩ :=
    runMiddleware_cancel_decomp ms1 ms2 m (mkEvent bus name payload) hbefore hcancel
  rw [← hdec] at h1 h2
  have hpub : bus.publish name payload =
      ⟨{ bus with idCounter := bus.idCounter + 1 },
       ⟨true, 0, [], mkEvent bus name payload⟩, []⟩ := by
    simp only [EventBus.publish]
    rw [if_pos (by simpa using h1)]
  rw [hpub]
  exact ⟨rfl, rfl, rfl, rfl, rfl, h2⟩

/-- A bus with one subscription and a single middleware that cancels
every publish. -/
def c5bus : EventBus :=
  ((EventBus.new.subscribe "a" okcb ⟨0, false, none⟩).1.use (fun _ => true))

/-- Witness for the cancellation theorem on `c5bus`. -/
theorem C5_witness :
    (c5bus.publish "a" 4).result.cancelled = true ∧
    (c5bus.publish "a" 4).result.delivered = 0 ∧
    (c5bus.publish "a" 4).invoked = [] ∧
    (c5bus.publish "a" 4).bus.events = c5bus.events ∧
    (c5bus.publish "a" 4).bus.eventHistory = c5bus.eventHistory ∧
    runMiddlewareCount c5bus.middleware (mkEvent c5bus "a" 4) =
      (true, List.length ([] : List (Event → Bool)) + 1) :=
  C5_cancellation c5bus "a" 4 [] [] (fun _ => true) rfl
    (by intro f hf; cases hf) rfl

/-! ### Claim C6 — subscriber errors are isolated -/

/-- C6: for a publish not cancelled by middleware, `publish` returns
normally (it is a total function) with: one `(subscriptionId, message)`
entry appended to `errors`, in snapshot order, for exactly the
filtered-in subscriptions whose callback throws; every filtered-in
subscription's callback is entered regardless of earlier errors
(delivery continues); and `delivered` counts exactly the filtered-in
callbacks that returned normally. -/
theorem C6_error_isolation (bus : EventBus) (name : String) (payload : Nat)
    (hmc : runMiddleware bus.middleware (mkEvent bus name payload) = false) :
    (bus.publish name payload).result.cancelled = false ∧
    (bus.publish name payload).result.errors =
      errorsSpec (mkEvent bus name payload) (findSubscriptions bus.events name) ∧
    (bus.publish name payload).invoked =
      invokedSpec (mkEvent bus name payload) (findSubscriptions bus.events name) ∧
    (bus.publish name payload).result.delivered =
      deliveredSpec (mkEvent bus name payload) (findSubscriptions bus.events name) := by
  by_cases hs : findSubscriptions bus.events name = []
  · rw [publish_no_subs bus name payload hmc hs, hs]
    exact ⟨rfl, rfl, rfl, rfl⟩
  · rw [publish_delivers bus name payload hmc hs]
    exact ⟨rfl, rfl, rfl, rfl⟩

/-- A bus with three subscriptions on pattern `e`: ok (id 1), throwing
(id 2), ok (id 3), all priority 0. -/
def c6bus : EventBus :=
  (((EventBus.new.subscribe "e" okcb ⟨0, false, none⟩).1.subscribe
      "e" boomcb ⟨0, false, none⟩).1.subscribe
      "e" okcb ⟨0, false, none⟩).1

/-- Witness for the error-isolation theorem on `c6bus`: the middle
subscription throws, its error is recorded, and both neighbours are
still delivered. -/
theorem C6_witness :
    ((c6bus.publish "e" 5).result.cancelled = false ∧
     (c6bus.publish "e" 5).result.errors =
       errorsSpec (mkEvent c6bus "e" 5) (findSubscriptions c6bus.events "e") ∧
     (c6bus.publish "e" 5).invoked =
       invokedSpec (mkEvent c6bus "e" 5) (findSubscriptions c6bus.events "e") ∧
     (c6bus.publish "e" 5).result.delivered =
       deliveredSpec (mkEvent c6bus "e" 5) (findSubscriptions c6bus.events "e")) ∧
    (c6bus.publish "e" 5).result.errors = [(2, "boom")] ∧
    (c6bus.publish "e" 5).invoked = [1, 2, 3] ∧
    (c6bus.publish "e" 5).result.delivered = 2 :=
  ⟨C6_error_isolation c6bus "e" 5 rfl, rfl, rfl, rfl⟩

/-! ### Claim C7 — execute clears the redo stack -/

/-- C7: every successfully executed action clears the redo stack, while
`undo()` and `redo()` move the popped action between the stacks without
clearing; consequently after `execute(A); undo(); execute(C)` (with C
executing normally) the redo stack is empty and a subsequent `redo()`
is a no-op returning the sentinel with nothing invoked or published. -/
theorem C7_redo_clearing (h1 h2 h3 h4 : HistoryManager) (a1 b2 c3 A C : Action)
    (ha1 : a1.execResult = Except.ok ())
    (hb2 : h2.undoStack.getLast? = some b2)
    (hb2u : b2.undoResult = Except.ok ())
    (hc3 : h3.redoStack.getLast? = some c3)
    (hc3e : c3.execResult = Except.ok ())
    (hC : C.execResult = Except.ok ()) :
    (h1.execute a1).hm.redoStack = [] ∧
    ((h2.undo).hm.redoStack = h2.redoStack ++ [b2] ∧
     (h2.undo).hm.undoStack = h2.undoStack.dropLast) ∧
    ((h3.redo).hm.undoStack = h3.undoStack ++ [c3] ∧
     (h3.redo).hm.redoStack = h3.redoStack.dropLast) ∧
    (((h4.execute A).hm.undo).hm.execute C).hm.redoStack = [] ∧
    (((h4.execute A).hm.undo).hm.execute C).hm.redo =
      ⟨(((h4.execute A).hm.undo).hm.execute C).hm, HMResult.sentinel, [], []⟩ := by
  have hseq : (((h4.execute A).hm.undo).hm.execute C).hm.redoStack = [] := by
    simp [HistoryManager.execute, hC]
  refine ⟨by simp [HistoryManager.execute, ha1], ⟨?_, ?_⟩, ⟨?_, ?_⟩, hseq, ?_⟩
  · simp [HistoryManager.undo, hb2, hb2u]
  · simp [HistoryManager.undo, hb2, hb2u]
  · simp [HistoryManager.redo, hc3, hc3e]
  · simp [HistoryManager.redo, hc3, hc3e]
  · simp [HistoryManager.redo, hseq]

/-- An always-succeeding action named `w`. -/
def actW : Action := ⟨"w", Except.ok (), Except.ok ()⟩

/-- An always-succeeding action named `v`. -/
def actV : Action := ⟨"v", Except.ok (), Except.ok ()⟩

/-- Witness for the redo-clearing theorem on concrete managers. -/
theorem C7_witness :
    ((HistoryManager.new.execute actW).hm.redoStack = [] ∧
     (((⟨[actW], [], 50⟩ : HistoryManager).undo).hm.redoStack =
        ([] : List Action) ++ [actW] ∧
      (((⟨[actW], [], 50⟩ : HistoryManager)).undo).hm.undoStack =
        ([actW] : List Action).dropLast) ∧
     (((⟨[], [actV], 50⟩ : HistoryManager).redo).hm.undoStack =
        ([] : List Action) ++ [actV] ∧
      (((⟨[], [actV], 50⟩ : HistoryManager)).redo).hm.redoStack =
        ([actV] : List Action).dropLast) ∧
     (((HistoryManager.new.execute actW).hm.undo).hm.execute actV).hm.redoStack = [] ∧
     (((HistoryManager.new.execute actW).hm.undo).hm.execute actV).hm.redo =
       ⟨(((HistoryManager.new.execute actW).hm.undo).hm.execute actV).hm,
         HMResult.sentinel, [], []⟩) :=
  C7_redo_clearing HistoryManager.new ⟨[actW], [], 50⟩ ⟨[], [actV], 50⟩
    HistoryManager.new actW actW actV actW actV rfl rfl rfl rfl rfl rfl

/-! ### Claim C8 — undo/redo round trip -/

/-- C8: from empty stacks, `execute(A); execute(B); undo(); redo()`
ends with undo stack `[A, B]` (A oldest) and an empty redo stack,
having invoked exactly `A.execute`, `B.execute`, `B.undo`, `B.execute`
in that order — so `A.execute` once, `B.execute` twice, `B.undo` once. -/
theorem C8_roundtrip (A B : Action)
    (hA : A.execResult = Except.ok ()) (hB : B.execResult = Except.ok ())
    (hBu : B.undoResult = Except.ok ()) (hAB : A ≠ B) :
    ((((HistoryManager.new.execute A).hm.execute B).hm.undo).hm.redo).hm.undoStack
      = [A, B] ∧
    ((((HistoryManager.new.execute A).hm.execute B).hm.undo).hm.redo).hm.redoStack
      = [] ∧
    ((HistoryManager.new.execute A).calls ++
     ((HistoryManager.new.execute A).hm.execute B).calls ++
     (((HistoryManager.new.execute A).hm.execute B).hm.undo).calls ++
     ((((HistoryManager.new.execute A).hm.execute B).hm.undo).hm.redo).calls) =
      [ACall.exec A, ACall.exec B, ACall.und B, ACall.exec B] ∧
    ((HistoryManager.new.execute A).calls ++
     ((HistoryManager.new.execute A).hm.execute B).calls ++
     (((HistoryManager.new.execute A).hm.execute B).hm.undo).calls ++
     ((((HistoryManager.new.execute A).hm.execute B).hm.undo).hm.redo).calls).count
        (ACall.exec A) = 1 ∧
    ((HistoryManager.new.execute A).calls ++
     ((HistoryManager.new.execute A).hm.execute B).calls ++
     (((HistoryManager.new.execute A).hm.execute B).hm.undo).calls ++
     ((((HistoryManager.new.execute A).hm.execute B).hm.undo).hm.redo).calls).count
        (ACall.exec B) = 2 ∧
    ((HistoryManager.new.execute A).calls ++
     ((HistoryManager.new.execute A).hm.execute B).calls ++
     (((HistoryManager.new.execute A).hm.execute B).hm.undo).calls ++
     ((((HistoryManager.new.execute A).hm.execute B).hm.undo).hm.redo).calls).count
        (ACall.und B) = 1 := by
  have hAB2 : ACall.exec A ≠ ACall.exec B := by
    intro h
    exact hAB (ACall.exec.inj h)
  simp [HistoryManager.new, HistoryManager.execute, HistoryManager.undo,
    HistoryManager.redo, hA, hB, hBu, List.count_cons, List.count_nil, hAB2,
    Ne.symm hAB2]

/-- Witness for the round-trip theorem on two distinct concrete
actions. -/
theorem C8_witness :
    ((((HistoryManager.new.execute actW).hm.execute actV).hm.undo).hm.redo).hm.undoStack
      = [actW, actV] ∧
    ((((HistoryManager.new.execute actW).hm.execute actV).hm.undo).hm.redo).hm.redoStack
      = [] ∧
    ((HistoryManager.new.execute actW).calls ++
     ((HistoryManager.new.execute actW).hm.execute actV).calls ++
     (((HistoryManager.new.execute actW).hm.execute actV).hm.undo).calls ++
     ((((HistoryManager.new.execute actW).hm.execute actV).hm.undo).hm.redo).calls) =
      [ACall.exec actW, ACall.exec actV, ACall.und actV, ACall.exec actV] ∧
    ((HistoryManager.new.execute actW).calls ++
     ((HistoryManager.new.execute actW).hm.execute actV).calls ++
     (((HistoryManager.new.execute actW).hm.execute actV).hm.undo).calls ++
     ((((HistoryManager.new.execute actW).hm.execute actV).hm.undo).hm.redo).calls).count
        (ACall.exec actW) = 1 ∧
    ((HistoryManager.new.execute actW).calls ++
     ((HistoryManager.new.execute actW).hm.execute actV).calls ++
     (((HistoryManager.new.execute actW).hm.execute actV).hm.undo).calls ++
     ((((HistoryManager.new.execute actW).hm.execute actV).hm.undo).hm.redo).calls).count
        (ACall.exec actV) = 2 ∧
    ((HistoryManager.new.execute actW).calls ++
     ((HistoryManager.new.execute actW).hm.execute actV).calls ++
     (((HistoryManager.new.execute actW).hm.execute actV).hm.undo).calls ++
     ((((HistoryManager.new.execute actW).hm.execute actV).hm.undo).hm.redo).calls).count
        (ACall.und actV) = 1 :=
  C8_roundtrip actW actV rfl rfl rfl (by decide)

/-! ### Claim C10 — a throwing execute leaves the manager unchanged -/

/-- C10: when `action.execute()` throws inside
`HistoryManager.execute`, the exception propagates to the caller and
the manager's state is unchanged: the action is not pushed, the redo
stack is not cleared, and no stack-changed notification is published. -/
theorem C10_execute_throw (hm : HistoryManager) (a : Action) (msg : String)
    (h : a.execResult = Except.error msg) :
    hm.execute a = ⟨hm, HMResult.thrown msg, [ACall.exec a], []⟩ := by
  simp [HistoryManager.execute, h]

/-- An action whose execute throws with message `"fail"`. -/
def actBad : Action := ⟨"bad", Except.error "fail", Except.ok ()⟩

/-- Witness for the throwing-execute theorem: a manager with a
nonempty redo stack keeps it intact and publishes nothing. -/
theorem C10_witness :
    (⟨[actW], [actV], 50⟩ : HistoryManager).execute actBad =
      ⟨⟨[actW], [actV], 50⟩, HMResult.thrown "fail", [ACall.exec actBad], []⟩ :=
  C10_execute_throw ⟨[actW], [actV], 50⟩ actBad "fail" rfl

/-! ### Claim C9 — selectNode on an already-selected node -/

/-- A selection manager with nodes `n1` and `n2` selected. -/
def c9sm : SelectionManager := ⟨["n1", "n2"], [], [], 20⟩

/-- C9 counterexample: with `multi = false` (the default),
`selectNode("n1")` on a selection already containing `n1` is NOT a
no-op: it clears the whole selection — publishing `node.deselected`
for `n1` (and `n2`) — then re-adds `n1` and publishes `node.selected`
for it, and the selected-node set shrinks from `[n1, n2]` to `[n1]`. -/
theorem C9_counterexample :
    (c9sm.selectNode "n1" false "src").published =
      [SMEvent.nodeDeselected "n1" "clearAll",
       SMEvent.nodeDeselected "n2" "clearAll",
       SMEvent.selChanged [] (some ["n1", "n2"]),
       SMEvent.nodeSelected "n1" false "src",
       SMEvent.selChanged ["n1"] none] ∧
    (c9sm.selectNode "n1" false "src").sm.selectedNodes = ["n1"] ∧
    c9sm.selectedNodes = ["n1", "n2"] := by
  exact ⟨rfl, rfl, rfl⟩

/-- C9 (amended): only with `multi = true` is `selectNode` on an
already-selected node a no-op — the manager state is unchanged and no
event at all is published by the call. -/
theorem C9_noop_when_multi (sm : SelectionManager) (nodeId source : String)
    (h : sm.selectedNodes.contains nodeId = true) :
    sm.selectNode nodeId true source = ⟨sm, []⟩ := by
  have h2 : nodeId ∈ sm.selectedNodes := by simpa using h
  simp [SelectionManager.selectNode, h2]

/-- Witness for the multi-mode no-op theorem. -/
theorem C9_witness :
    (⟨["n"], [], [], 20⟩ : SelectionManager).selectNode "n" true "src" =
      ⟨⟨["n"], [], [], 20⟩, []⟩ :=
  C9_noop_when_multi ⟨["n"], [], [], 20⟩ "n" "src" rfl

end Geometrics
